import Mathlib

/-!
Verification of the App Store competitor monitor (app_store_bot.py).

The development shallowly embeds the core of the program:
* `AppInfo` mirrors the dataclass of the same name; the dynamically
  attached attribute on notified apps is modelled by `MarkedApp`,
  whose equality deliberately ignores the flag (the Python dataclass
  equality only compares declared fields).
* `Store` models the `last_versions` dict with Python dict semantics
  (update in place keeps the position of a key, fresh keys append).
* `checkForUpdates` mirrors `CompetitorMonitor.check_for_updates`:
  the loop over `self.competitors`, the skip on failed fetches, the
  comparison `last_version != app_info.current_version`, the flag
  `is_new_release = last_version is not None` and the in-place store
  update.
* `sendConsolidatedNotification` mirrors the block construction of
  `SlackNotifier.send_consolidated_notification`, including the early
  return on an empty list, the title emoji chosen from the marked
  apps, the notes truncation at 500 characters and the divider rule
  `app_info != updated_apps[-1]`.
* `runCycle` mirrors the tail of `check_for_updates`: the notifier is
  invoked and `save_last_check` persists the store exactly when the
  list of updates is non-empty; a `SlackApiError` raised by the post
  is caught inside the notifier, so persistence happens regardless of
  the delivery outcome.
-/

/-- Mirror of the `AppInfo` dataclass.  The `datetime` field
`last_updated` is kept as the already formatted display string, since
the core only ever formats it with a fixed `strftime` pattern. -/
structure AppInfo where
  app_id : String
  name : String
  developer : String
  current_version : String
  last_updated : String
  store_url : String
  release_notes : String
deriving DecidableEq, Repr

/-- The payload of a successful `AppStoreMonitor.get_app_info` call,
before the requested id is attached (the method always builds the
returned `AppInfo` with `app_id` equal to its argument). -/
structure FetchedApp where
  name : String
  developer : String
  current_version : String
  last_updated : String
  store_url : String
  release_notes : String
deriving DecidableEq, Repr

/-- How `get_app_info` assembles the returned `AppInfo` from the
requested id and the decoded lookup data. -/
def mkAppInfo (app_id : String) (d : FetchedApp) : AppInfo :=
  { app_id := app_id
    name := d.name
    developer := d.developer
    current_version := d.current_version
    last_updated := d.last_updated
    store_url := d.store_url
    release_notes := d.release_notes }

/-- An `AppInfo` together with the dynamically attached
`_is_new_release` attribute set in `check_for_updates` (absent
attribute is modelled as `false`, matching the `hasattr` checks in the
notifier).  Note that Python dataclass equality compares only the
declared `AppInfo` fields, never the attached flag, so the notifier
code below always compares the `info` components. -/
structure MarkedApp where
  info : AppInfo
  is_new_release : Bool
deriving DecidableEq, Repr

/-- The persisted `last_versions` mapping, with Python dict
semantics: an association list whose keys are unique, where updating
an existing key keeps its position and a fresh key is appended. -/
abbrev Store := List (String × String)

/-- `d.get(k)` on the modelled dict. -/
def Store.get : Store → String → Option String
  | [], _ => none
  | (k', v) :: rest, k => if k' = k then some v else Store.get rest k

/-- `d[k] = v` on the modelled dict. -/
def Store.set : Store → String → String → Store
  | [], k, v => [(k, v)]
  | (k', v') :: rest, k, v =>
      if k' = k then (k, v) :: rest else (k', v') :: Store.set rest k v

/-- Mirror of the loop body of `CompetitorMonitor.check_for_updates`
(lines 235 to 255): iterate the competitor ids in order; a failed
fetch is skipped; on `last_version != app_info.current_version` the
app is marked with `is_new_release = (last_version is not None)`,
appended to the updates, and the store entry is overwritten with the
fetched version.  Returns the collected updates and the final
in-memory store. -/
def checkForUpdates (fetch : String → Option FetchedApp) :
    List String → Store → List MarkedApp × Store
  | [], last_versions => ([], last_versions)
  | app_id :: rest, last_versions =>
    match fetch app_id with
    | none => checkForUpdates fetch rest last_versions
    | some d =>
      if Store.get last_versions app_id ≠ some d.current_version then
        (⟨mkAppInfo app_id d, (Store.get last_versions app_id).isSome⟩ ::
            (checkForUpdates fetch rest
              (Store.set last_versions app_id d.current_version)).1,
          (checkForUpdates fetch rest
            (Store.set last_versions app_id d.current_version)).2)
      else
        checkForUpdates fetch rest last_versions

/-- Python `str.strip()` as used in the notes guard. -/
def pyStrip (s : String) : String :=
  String.mk (((s.data.dropWhile Char.isWhitespace).reverse.dropWhile
    Char.isWhitespace).reverse)

/-- The notes slice of line 152: `release_notes[:500]` followed by an
ellipsis exactly when the notes are longer than 500 characters. -/
def pyTruncatedNotes (s : String) : String :=
  String.mk (s.data.take 500) ++ (if 500 < s.data.length then "..." else "")

/-- The full mrkdwn text of a notes section. -/
def notesBlockText (s : String) : String :=
  "*What\u0027s New:*\n```" ++ pyTruncatedNotes s ++ "```"

/-- One Slack block, restricted to the shapes the notifier emits. -/
inductive Block where
  | header (text : String)
  | appSection (field1 field2 field3 : String)
  | notesSection (text : String)
  | divider
deriving DecidableEq, Repr

/-- First mrkdwn field of an app section (line 129). -/
def nameFieldText (m : MarkedApp) : String :=
  (if m.is_new_release then "🆕" else "📱") ++ " *" ++ m.info.name ++ "*\n"
    ++ m.info.developer

/-- Second mrkdwn field of an app section (line 133). -/
def versionFieldText (i : AppInfo) : String :=
  "*Version:* " ++ i.current_version ++ "\n*Updated:* " ++ i.last_updated

/-- Third mrkdwn field of an app section (line 141). -/
def linkFieldText (i : AppInfo) : String :=
  "<" ++ i.store_url ++ "|📱 App Store>"

/-- The blocks contributed for one updated app (lines 119 to 158):
the section with three fields, then the notes section when the notes
are non-empty and do not strip to the empty string, then a divider
when the app differs (by dataclass equality, i.e. on the `AppInfo`
fields) from the last element of the list. -/
def appBlocks (lastInfo : AppInfo) (m : MarkedApp) : List Block :=
  Block.appSection (nameFieldText m) (versionFieldText m.info)
      (linkFieldText m.info) ::
    ((if m.info.release_notes ≠ "" ∧ pyStrip m.info.release_notes ≠ ""
        then [Block.notesSection (notesBlockText m.info.release_notes)]
        else []) ++
      (if m.info ≠ lastInfo then [Block.divider] else []))

/-- The title emoji of lines 102 to 105: the new-release emoji when
the filtered list of marked apps is non-empty, the plain emoji
otherwise. -/
def titleEmoji (updated_apps : List MarkedApp) : String :=
  if updated_apps.any (fun m => m.is_new_release) then "🆕" else "📱"

/-- The consolidated title of line 106. -/
def buildTitle (updated_apps : List MarkedApp) : String :=
  titleEmoji updated_apps ++ " Competitor App Updates ("
    ++ toString updated_apps.length ++ ")"

/-- The message dictionary handed to `chat_postMessage`. -/
structure Payload where
  channel : String
  text : String
  blocks : List Block
deriving DecidableEq, Repr

/-- Mirror of `SlackNotifier.send_consolidated_notification` up to
the delivery call: `None` on an empty list (line 98), otherwise the
header block followed by the per-app blocks, every divider comparison
being made against `updated_apps[-1]`. -/
def sendConsolidatedNotification (channel : String)
    (updated_apps : List MarkedApp) : Option Payload :=
  match updated_apps.getLast? with
  | none => none
  | some lastM =>
    some { channel := channel
           text := buildTitle updated_apps
           blocks := Block.header (buildTitle updated_apps) ::
             (updated_apps.map (appBlocks lastM.info)).flatten }

/-- Outcome of the `chat_postMessage` call: either it succeeds or it
raises a `SlackApiError`, which the notifier catches and logs. -/
inductive DeliveryOutcome where
  | ok
  | slackApiError
deriving DecidableEq, Repr

/-- Observable summary of one polling cycle. -/
structure CycleResult where
  changes : List MarkedApp
  payload : Option Payload
  deliveryAttempted : Bool
  deliverySucceeded : Bool
  persistedStore : Store
deriving DecidableEq, Repr

/-- Mirror of one full `check_for_updates` invocation together with
its tail (lines 257 to 263): when the list of updates is non-empty
the notifier is invoked (its `SlackApiError` handler swallows a
failed delivery) and `save_last_check` then persists the in-memory
store unconditionally; when the list is empty nothing is sent and
nothing is written. -/
def runCycle (channel : String) (competitors : List String)
    (fetch : String → Option FetchedApp)
    (deliver : Payload → DeliveryOutcome)
    (last_versions : Store) : CycleResult :=
  match sendConsolidatedNotification channel
      (checkForUpdates fetch competitors last_versions).1 with
  | none =>
    { changes := (checkForUpdates fetch competitors last_versions).1
      payload := none
      deliveryAttempted := false
      deliverySucceeded := false
      persistedStore := last_versions }
  | some p =>
    { changes := (checkForUpdates fetch competitors last_versions).1
      payload := some p
      deliveryAttempted := true
      deliverySucceeded :=
        match deliver p with
        | DeliveryOutcome.ok => true
        | DeliveryOutcome.slackApiError => false
      persistedStore := (checkForUpdates fetch competitors last_versions).2 }

/-- Recognizer for divider blocks, used to count separators. -/
def isDivider : Block → Bool
  | Block.divider => true
  | _ => false

/-- Projects the three mrkdwn fields out of an app section block. -/
def blockAppFields : Block → Option (String × String × String)
  | Block.appSection f1 f2 f3 => some (f1, f2, f3)
  | _ => none

/-- The three mrkdwn field texts the notifier renders for one marked
app. -/
def markedFields (m : MarkedApp) : String × String × String :=
  (nameFieldText m, versionFieldText m.info, linkFieldText m.info)

/-- A sample metadata record used to instantiate the theorems below
on concrete inputs. -/
def sampleInfo : AppInfo :=
  { app_id := "100"
    name := "Alpha"
    developer := "Acme"
    current_version := "1.0"
    last_updated := "2024-05-01 10:00 UTC"
    store_url := "https://apps.example/100"
    release_notes := "" }

/-- A second sample metadata record, distinct from `sampleInfo`. -/
def sampleInfo2 : AppInfo :=
  { app_id := "200"
    name := "Beta"
    developer := "Bcme"
    current_version := "2.3"
    last_updated := "2024-06-02 11:30 UTC"
    store_url := "https://apps.example/200"
    release_notes := "Bug fixes." }

/-- Release notes of length 600, above the truncation limit. -/
def longNotes : String := String.mk (List.replicate 600 'x')

/-- A sample fetch collaborator: id 100 and id 200 resolve, all
other ids fail. -/
def sampleFetch : String → Option FetchedApp := fun id =>
  if id = "100" then
    some { name := "Alpha"
           developer := "Acme"
           current_version := "1.0"
           last_updated := "2024-05-01 10:00 UTC"
           store_url := "https://apps.example/100"
           release_notes := "" }
  else if id = "200" then
    some { name := "Beta"
           developer := "Bcme"
           current_version := "2.3"
           last_updated := "2024-06-02 11:30 UTC"
           store_url := "https://apps.example/200"
           release_notes := "Bug fixes." }
  else none

/-! ### Store lemmas -/

theorem Store.get_set_self (s : Store) (k v : String) :
    Store.get (Store.set s k v) k = some v := by
  induction s with
  | nil => simp [Store.set, Store.get]
  | cons p rest ih =>
    obtain ⟨k', v'⟩ := p
    by_cases h : k' = k
    · simp [Store.set, Store.get, h]
    · simp [Store.set, Store.get, h, ih]

theorem Store.get_set_ne (s : Store) (k k' v : String) (h : k ≠ k') :
    Store.get (Store.set s k v) k' = Store.get s k' := by
  induction s with
  | nil => simp [Store.set, Store.get, h]
  | cons p rest ih =>
    obtain ⟨a, b⟩ := p
    by_cases ha : a = k
    · subst ha
      simp [Store.set, Store.get, h]
    · simp [Store.set, Store.get, ha, ih]

/-! ### Lemmas about the update-detection loop -/

/-- Every collected update comes from a competitor id whose fetch
succeeded, and it embeds exactly the fetched data for that id. -/
theorem mem_checkForUpdates (fetch : String → Option FetchedApp) :
    ∀ (comps : List String) (s : Store) (m : MarkedApp),
      m ∈ (checkForUpdates fetch comps s).1 →
      m.info.app_id ∈ comps ∧
        ∃ d, fetch m.info.app_id = some d ∧ m.info = mkAppInfo m.info.app_id d := by
  intro comps
  induction comps with
  | nil => intro s m hm; simp [checkForUpdates] at hm
  | cons x rest ih =>
    intro s m hm
    cases hfx : fetch x with
    | none =>
      simp only [checkForUpdates, hfx] at hm
      obtain ⟨h1, h2⟩ := ih s m hm
      exact ⟨List.mem_cons_of_mem x h1, h2⟩
    | some d =>
      simp only [checkForUpdates, hfx] at hm
      by_cases hc : Store.get s x ≠ some d.current_version
      · rw [if_pos hc] at hm
        rcases List.mem_cons.mp hm with h | h
        · subst h
          refine ⟨List.mem_cons_self x rest, d, ?_, rfl⟩
          simpa [mkAppInfo] using hfx
        · obtain ⟨h1, h2⟩ := ih _ m h
          exact ⟨List.mem_cons_of_mem x h1, h2⟩
      · rw [if_neg hc] at hm
        obtain ⟨h1, h2⟩ := ih s m hm
        exact ⟨List.mem_cons_of_mem x h1, h2⟩

/-- A key that is not a competitor, or whose fetch fails, is never
written by the loop. -/
theorem store_untouched (fetch : String → Option FetchedApp) (k : String) :
    ∀ (comps : List String) (s : Store), (k ∉ comps ∨ fetch k = none) →
      Store.get (checkForUpdates fetch comps s).2 k = Store.get s k := by
  intro comps
  induction comps with
  | nil => intro s _; simp [checkForUpdates]
  | cons x rest ih =>
    intro s hk
    have hk' : k ∉ rest ∨ fetch k = none := by
      rcases hk with hk | hk
      · exact Or.inl (fun h => hk (List.mem_cons_of_mem x h))
      · exact Or.inr hk
    cases hfx : fetch x with
    | none => simp only [checkForUpdates, hfx]; exact ih s hk'
    | some d =>
      simp only [checkForUpdates, hfx]
      by_cases hc : Store.get s x ≠ some d.current_version
      · rw [if_pos hc]
        have hxk : k ≠ x := by
          rintro rfl
          rcases hk with hk | hk
          · exact hk (List.mem_cons_self k rest)
          · rw [hk] at hfx; exact Option.noConfusion hfx
        rw [ih _ hk', Store.get_set_ne _ _ _ _ (Ne.symm hxk)]
      · rw [if_neg hc]; exact ih s hk'

/-- If the store already records the fetched version for an id, the
loop never changes that entry. -/
theorem upToDate_preserved (fetch : String → Option FetchedApp)
    (id : String) (d : FetchedApp) (hf : fetch id = some d) :
    ∀ (comps : List String) (s : Store),
      Store.get s id = some d.current_version →
      Store.get (checkForUpdates fetch comps s).2 id = some d.current_version := by
  intro comps
  induction comps with
  | nil => intro s hs; simpa [checkForUpdates] using hs
  | cons x rest ih =>
    intro s hs
    cases hfx : fetch x with
    | none => simp only [checkForUpdates, hfx]; exact ih s hs
    | some dx =>
      simp only [checkForUpdates, hfx]
      by_cases hc : Store.get s x ≠ some dx.current_version
      · rw [if_pos hc]
        have hxid : x ≠ id := by
          rintro rfl
          rw [hf] at hfx
          cases hfx
          exact hc hs
        exact ih _ (by rw [Store.get_set_ne _ _ _ _ hxid]; exact hs)
      · rw [if_neg hc]; exact ih s hs

/-- If the store already records the fetched version for an id, the
loop produces no update record for that id. -/
theorem no_record_of_upToDate (fetch : String → Option FetchedApp)
    (id : String) (d : FetchedApp) (hf : fetch id = some d) :
    ∀ (comps : List String) (s : Store),
      Store.get s id = some d.current_version →
      ∀ m ∈ (checkForUpdates fetch comps s).1, m.info.app_id ≠ id := by
  intro comps
  induction comps with
  | nil => intro s _ m hm; simp [checkForUpdates] at hm
  | cons x rest ih =>
    intro s hs m hm
    cases hfx : fetch x with
    | none =>
      simp only [checkForUpdates, hfx] at hm
      exact ih s hs m hm
    | some dx =>
      simp only [checkForUpdates, hfx] at hm
      by_cases hc : Store.get s x ≠ some dx.current_version
      · rw [if_pos hc] at hm
        have hxid : x ≠ id := by
          rintro rfl
          rw [hf] at hfx
          cases hfx
          exact hc hs
        rcases List.mem_cons.mp hm with h | h
        · subst h; exact hxid
        · exact ih _ (by rw [Store.get_set_ne _ _ _ _ hxid]; exact hs) m h
      · rw [if_neg hc] at hm
        exact ih s hs m hm

/-- After the loop, every competitor with a successful fetch is
recorded in the final store at exactly the fetched version. -/
theorem store_success (fetch : String → Option FetchedApp)
    (id : String) (d : FetchedApp) (hf : fetch id = some d) :
    ∀ (comps : List String) (s : Store), id ∈ comps →
      Store.get (checkForUpdates fetch comps s).2 id = some d.current_version := by
  intro comps
  induction comps with
  | nil => intro s h; exact absurd h (List.not_mem_nil id)
  | cons x rest ih =>
    intro s hid
    by_cases hxid : x = id
    · subst hxid
      cases hfx : fetch x with
      | none => rw [hf] at hfx; exact Option.noConfusion hfx
      | some dx =>
        rw [hf] at hfx
        cases hfx
        simp only [checkForUpdates, hf]
        by_cases hc : Store.get s x ≠ some d.current_version
        · rw [if_pos hc]
          exact upToDate_preserved fetch x d hf rest _
            (Store.get_set_self s x d.current_version)
        · rw [if_neg hc]
          push_neg at hc
          exact upToDate_preserved fetch x d hf rest s hc
    · have hid' : id ∈ rest := by
        rcases List.mem_cons.mp hid with h | h
        · exact absurd h.symm hxid
        · exact h
      cases hfx : fetch x with
      | none => simp only [checkForUpdates, hfx]; exact ih s hid'
      | some dx =>
        simp only [checkForUpdates, hfx]
        by_cases hc : Store.get s x ≠ some dx.current_version
        · rw [if_pos hc]; exact ih _ hid'
        · rw [if_neg hc]; exact ih s hid'

/-- Pointwise description of the final store: each key is either
untouched or overwritten with its own fetched version. -/
theorem store_cases (fetch : String → Option FetchedApp) (k : String) :
    ∀ (comps : List String) (s : Store),
      Store.get (checkForUpdates fetch comps s).2 k = Store.get s k ∨
        ∃ d, fetch k = some d ∧
          Store.get (checkForUpdates fetch comps s).2 k = some d.current_version := by
  intro comps
  induction comps with
  | nil => intro s; left; simp [checkForUpdates]
  | cons x rest ih =>
    intro s
    cases hfx : fetch x with
    | none => simp only [checkForUpdates, hfx]; exact ih s
    | some dx =>
      simp only [checkForUpdates, hfx]
      by_cases hc : Store.get s x ≠ some dx.current_version
      · rw [if_pos hc]
        by_cases hkx : k = x
        · subst hkx
          right
          exact ⟨dx, hfx, upToDate_preserved fetch k dx hfx rest _
            (Store.get_set_self s k dx.current_version)⟩
        · rcases ih (Store.set s x dx.current_version) with h | h
          · left; rw [h, Store.get_set_ne _ _ _ _ (fun he => hkx he.symm)]
          · right; exact h
      · rw [if_neg hc]; exact ih s

/-- When the loop finds nothing, the store already held the fetched
version of every competitor whose fetch succeeded. -/
theorem upToDate_of_no_changes (fetch : String → Option FetchedApp) :
    ∀ (comps : List String) (s : Store),
      (checkForUpdates fetch comps s).1 = [] →
      ∀ id ∈ comps, ∀ d, fetch id = some d →
        Store.get s id = some d.current_version := by
  intro comps
  induction comps with
  | nil => intro s _ id hid; exact absurd hid (List.not_mem_nil id)
  | cons x rest ih =>
    intro s hnil id hid d hf
    cases hfx : fetch x with
    | none =>
      simp only [checkForUpdates, hfx] at hnil
      rcases List.mem_cons.mp hid with h | h
      · subst h; rw [hf] at hfx; exact Option.noConfusion hfx
      · exact ih s hnil id h d hf
    | some dx =>
      simp only [checkForUpdates, hfx] at hnil
      by_cases hc : Store.get s x ≠ some dx.current_version
      · rw [if_pos hc] at hnil
        exact absurd hnil (List.cons_ne_nil _ _)
      · rw [if_neg hc] at hnil
        push_neg at hc
        rcases List.mem_cons.mp hid with h | h
        · subst h; rw [hf] at hfx; cases hfx; exact hc
        · exact ih s hnil id h d hf

/-- Conversely, when the store already holds the fetched version of
every competitor whose fetch succeeds, the loop finds nothing and
leaves the store alone. -/
theorem no_changes_of_upToDate (fetch : String → Option FetchedApp) :
    ∀ (comps : List String) (s : Store),
      (∀ id ∈ comps, ∀ d, fetch id = some d →
        Store.get s id = some d.current_version) →
      checkForUpdates fetch comps s = ([], s) := by
  intro comps
  induction comps with
  | nil => intro s _; simp [checkForUpdates]
  | cons x rest ih =>
    intro s hs
    cases hfx : fetch x with
    | none =>
      simp only [checkForUpdates, hfx]
      exact ih s (fun id hid => hs id (List.mem_cons_of_mem x hid))
    | some dx =>
      simp only [checkForUpdates, hfx]
      have hx : Store.get s x = some dx.current_version :=
        hs x (List.mem_cons_self x rest) dx hfx
      rw [if_neg (by simpa using hx)]
      exact ih s (fun id hid => hs id (List.mem_cons_of_mem x hid))

/-! ### Formatter lemmas -/

/-- Divider recognition on a header block. -/
@[simp] theorem isDivider_header (t : String) :
    isDivider (Block.header t) = false := rfl

/-- Divider recognition on an app section. -/
@[simp] theorem isDivider_appSection (a b c : String) :
    isDivider (Block.appSection a b c) = false := rfl

/-- Divider recognition on a notes section. -/
@[simp] theorem isDivider_notesSection (t : String) :
    isDivider (Block.notesSection t) = false := rfl

/-- Divider recognition on a divider. -/
@[simp] theorem isDivider_divider : isDivider Block.divider = true := rfl

/-- Field projection on a header block. -/
@[simp] theorem blockAppFields_header (t : String) :
    blockAppFields (Block.header t) = none := rfl

/-- Field projection on an app section. -/
@[simp] theorem blockAppFields_appSection (a b c : String) :
    blockAppFields (Block.appSection a b c) = some (a, b, c) := rfl

/-- Field projection on a notes section. -/
@[simp] theorem blockAppFields_notesSection (t : String) :
    blockAppFields (Block.notesSection t) = none := rfl

/-- Field projection on a divider. -/
@[simp] theorem blockAppFields_divider : blockAppFields Block.divider = none := rfl

/-- The divider blocks emitted for one app: exactly one when the app
differs from the last list element, none otherwise. -/
theorem filter_isDivider_appBlocks (lastInfo : AppInfo) (m : MarkedApp) :
    (appBlocks lastInfo m).filter isDivider =
      if m.info = lastInfo then [] else [Block.divider] := by
  rw [appBlocks]
  by_cases h1 : m.info.release_notes ≠ "" ∧ pyStrip m.info.release_notes ≠ ""
  · rw [if_pos h1]
    by_cases h2 : m.info = lastInfo
    · rw [if_neg (fun h => h h2), if_pos h2]; simp
    · rw [if_pos h2, if_neg h2]; simp
  · rw [if_neg h1]
    by_cases h2 : m.info = lastInfo
    · rw [if_neg (fun h => h h2), if_pos h2]; simp
    · rw [if_pos h2, if_neg h2]; simp

/-- The app sections emitted for one app: exactly one, carrying the
three rendered fields. -/
theorem filterMap_blockAppFields_appBlocks (lastInfo : AppInfo) (m : MarkedApp) :
    (appBlocks lastInfo m).filterMap blockAppFields = [markedFields m] := by
  rw [appBlocks]
  by_cases h1 : m.info.release_notes ≠ "" ∧ pyStrip m.info.release_notes ≠ ""
  · rw [if_pos h1]
    by_cases h2 : m.info = lastInfo
    · rw [if_neg (fun h => h h2)]; simp [markedFields]
    · rw [if_pos h2]; simp [markedFields]
  · rw [if_neg h1]
    by_cases h2 : m.info = lastInfo
    · rw [if_neg (fun h => h h2)]; simp [markedFields]
    · rw [if_pos h2]; simp [markedFields]

/-- Flattened over a whole list, the app sections are in bijection
with the input records, in order. -/
theorem filterMap_blockAppFields_flatten (lastInfo : AppInfo) :
    ∀ (apps : List MarkedApp),
      ((apps.map (appBlocks lastInfo)).flatten).filterMap blockAppFields =
        apps.map markedFields := by
  intro apps
  induction apps with
  | nil => simp
  | cons a l ih =>
    simp [List.filterMap_append, filterMap_blockAppFields_appBlocks, ih]

/-- Last element of a list with an element appended. -/
theorem getLast_append_singleton {α : Type} (l : List α) (a : α) :
    (l ++ [a]).getLast? = some a := by
  induction l with
  | nil => rfl
  | cons x xs ih =>
    rw [List.cons_append, List.getLast?_cons, ih]
    cases xs <;> simp_all

/-- Divider count over a whole list of apps: exactly one divider per
app whose metadata differs from the given final metadata. -/
theorem length_filter_isDivider_flatten (zi : AppInfo) :
    ∀ (apps : List MarkedApp),
      (((apps.map (appBlocks zi)).flatten).filter isDivider).length =
        (apps.filter (fun m => decide (m.info ≠ zi))).length := by
  intro apps
  induction apps with
  | nil => simp
  | cons a as ih =>
    simp only [List.map_cons, List.flatten_cons, List.filter_append,
      List.length_append, List.filter_cons]
    rw [filter_isDivider_appBlocks, ih]
    by_cases h : a.info = zi
    · rw [if_pos h]
      simp [h]
    · rw [if_neg h, if_pos (decide_eq_true h)]
      simp [Nat.add_comm]

/-- A block list ending in the blocks of the final app itself never
ends in a divider. -/
theorem getLast_append_appBlocks_ne_divider (pre : List Block) (z : MarkedApp) :
    (pre ++ appBlocks z.info z).getLast? ≠ some Block.divider := by
  rw [appBlocks]
  by_cases h1 : z.info.release_notes ≠ "" ∧ pyStrip z.info.release_notes ≠ ""
  · rw [if_pos h1, if_neg (fun h => h rfl), List.append_nil]
    rw [show pre ++ (Block.appSection (nameFieldText z) (versionFieldText z.info)
          (linkFieldText z.info) ::
          [Block.notesSection (notesBlockText z.info.release_notes)]) =
        (pre ++ [Block.appSection (nameFieldText z) (versionFieldText z.info)
          (linkFieldText z.info)]) ++
          [Block.notesSection (notesBlockText z.info.release_notes)] by simp]
    rw [List.getLast?_concat]
    simp
  · rw [if_neg h1, if_neg (fun h => h rfl), List.nil_append]
    rw [List.getLast?_concat]
    simp

/-- A non-empty list has a last element. -/
theorem exists_getLast_cons {α : Type} (a : α) (l : List α) :
    ∃ z, (a :: l).getLast? = some z := by
  induction l generalizing a with
  | nil => exact ⟨a, rfl⟩
  | cons b t ih =>
    obtain ⟨z, hz⟩ := ih b
    exact ⟨z, by rw [List.getLast?_cons_cons]; exact hz⟩

/-- Explicit form of the notifier output on a list with a known last
element. -/
theorem sendConsolidatedNotification_eq_some (channel : String)
    (apps : List MarkedApp) (z : MarkedApp) (hz : apps.getLast? = some z) :
    sendConsolidatedNotification channel apps =
      some { channel := channel
             text := buildTitle apps
             blocks := Block.header (buildTitle apps) ::
               (apps.map (appBlocks z.info)).flatten } := by
  simp only [sendConsolidatedNotification, hz]

/-- The changes reported by a cycle are exactly the output of the
update-detection loop. -/
theorem runCycle_changes (channel : String) (comps : List String)
    (fetch : String → Option FetchedApp) (deliver : Payload → DeliveryOutcome)
    (s : Store) :
    (runCycle channel comps fetch deliver s).changes =
      (checkForUpdates fetch comps s).1 := by
  cases hch : (checkForUpdates fetch comps s).1 with
  | nil =>
    have h0 : sendConsolidatedNotification channel
        (checkForUpdates fetch comps s).1 = none := by rw [hch]; rfl
    simp only [runCycle, h0]
    exact hch
  | cons a l =>
    obtain ⟨z, hz⟩ := exists_getLast_cons a l
    have h0 := sendConsolidatedNotification_eq_some channel
      (checkForUpdates fetch comps s).1 z (by rw [hch]; exact hz)
    simp only [runCycle, h0]
    exact hch

/-- The store persisted by a cycle: untouched when no change was
found, otherwise the loop output — regardless of delivery outcome. -/
theorem runCycle_persistedStore (channel : String) (comps : List String)
    (fetch : String → Option FetchedApp) (deliver : Payload → DeliveryOutcome)
    (s : Store) :
    (runCycle channel comps fetch deliver s).persistedStore =
      if (checkForUpdates fetch comps s).1 = [] then s
      else (checkForUpdates fetch comps s).2 := by
  cases hch : (checkForUpdates fetch comps s).1 with
  | nil =>
    have h0 : sendConsolidatedNotification channel
        (checkForUpdates fetch comps s).1 = none := by rw [hch]; rfl
    simp only [runCycle, h0]
    simp [hch]
  | cons a l =>
    obtain ⟨z, hz⟩ := exists_getLast_cons a l
    have h0 := sendConsolidatedNotification_eq_some channel
      (checkForUpdates fetch comps s).1 z (by rw [hch]; exact hz)
    simp only [runCycle, h0]
    simp [hch]

/-- Reassembling a string from its characters. -/
theorem string_mk_data (s : String) : String.mk s.data = s := rfl

/-- Appending the empty string is the identity. -/
theorem string_append_empty (s : String) : s ++ "" = s := by
  cases s with
  | mk l =>
    show String.mk (l ++ []) = String.mk l
    rw [List.append_nil]

/-! ### Claims -/

/-- C1: the commit step is NOT withheld on delivery failure.  In a
cycle over one tracked id with an empty store, where the fetch
succeeds and the delivery collaborator raises SlackApiError, the
cycle still persists the fetched version: the notifier catches the
error internally and save_last_check then runs unconditionally, so
the persisted store after the cycle differs from the store before
the cycle, contradicting the claim that it is left identical. -/
theorem c1_delivery_failure_still_commits :
    (runCycle "chan" ["200"] sampleFetch
        (fun _ => DeliveryOutcome.slackApiError) []).deliveryAttempted = true ∧
      (runCycle "chan" ["200"] sampleFetch
        (fun _ => DeliveryOutcome.slackApiError) []).deliverySucceeded = false ∧
      (runCycle "chan" ["200"] sampleFetch
        (fun _ => DeliveryOutcome.slackApiError) []).persistedStore =
        [("200", "2.3")] ∧
      (runCycle "chan" ["200"] sampleFetch
        (fun _ => DeliveryOutcome.slackApiError) []).persistedStore ≠
        ([] : Store) := by
  refine ⟨rfl, rfl, rfl, ?_⟩
  decide

/-- C2: for every tracked id whose fetch succeeds, a change record
for that id is produced in the cycle iff the fetched version differs
from the version stored before the cycle (an absent entry always
differs), and any such record is marked as a new release exactly when
a differing prior version was stored, i.e. it is a first observation
exactly when no prior version was stored. -/
theorem c2_change_iff_version_differs (fetch : String → Option FetchedApp) :
    ∀ (comps : List String) (s : Store) (id : String) (d : FetchedApp),
      id ∈ comps → fetch id = some d →
      ((∃ m ∈ (checkForUpdates fetch comps s).1, m.info.app_id = id) ↔
          Store.get s id ≠ some d.current_version) ∧
        ∀ m ∈ (checkForUpdates fetch comps s).1, m.info.app_id = id →
          (m.is_new_release = false ↔ Store.get s id = none) ∧
            (m.is_new_release = true ↔
              ∃ v, Store.get s id = some v ∧ v ≠ d.current_version) := by
  intro comps
  induction comps with
  | nil => intro s id d hid; exact absurd hid (List.not_mem_nil id)
  | cons x rest ih =>
    intro s id d hid hf
    cases hfx : fetch x with
    | none =>
      have hne : id ≠ x := by
        intro he
        rw [he, hfx] at hf
        exact Option.noConfusion hf
      have hid' : id ∈ rest := by
        rcases List.mem_cons.mp hid with h | h
        · exact absurd h hne
        · exact h
      simp only [checkForUpdates, hfx]
      exact ih s id d hid' hf
    | some dx =>
      simp only [checkForUpdates, hfx]
      by_cases hc : Store.get s x ≠ some dx.current_version
      · rw [if_pos hc]
        by_cases hx : id = x
        · subst hx
          rw [hf] at hfx
          cases hfx
          constructor
          · constructor
            · intro _; exact hc
            · intro _
              exact ⟨⟨mkAppInfo id d, (Store.get s id).isSome⟩,
                List.mem_cons_self _ _, rfl⟩
          · intro m hm hmid
            rcases List.mem_cons.mp hm with h | h
            · subst h
              constructor
              · cases hsv : Store.get s id <;> simp
              · cases hsv : Store.get s id with
                | none => simp
                | some v =>
                  simp only [Option.isSome_some, true_iff]
                  exact ⟨v, rfl, fun he => hc (by rw [hsv, he])⟩
            · have := no_record_of_upToDate fetch id d hf rest
                (Store.set s id d.current_version)
                (Store.get_set_self s id d.current_version) m h
              exact absurd hmid this
        · have hid' : id ∈ rest := by
            rcases List.mem_cons.mp hid with h | h
            · exact absurd h hx
            · exact h
          have hgx : Store.get (Store.set s x dx.current_version) id =
              Store.get s id :=
            Store.get_set_ne s x id dx.current_version (fun he => hx he.symm)
          obtain ⟨ihIff, ihKind⟩ :=
            ih (Store.set s x dx.current_version) id d hid' hf
          rw [hgx] at ihIff ihKind
          constructor
          · constructor
            · rintro ⟨m, hm, hmid⟩
              rcases List.mem_cons.mp hm with h | h
              · subst h
                exact absurd hmid.symm hx
              · exact ihIff.mp ⟨m, h, hmid⟩
            · intro hrhs
              obtain ⟨m, hm, hmid⟩ := ihIff.mpr hrhs
              exact ⟨m, List.mem_cons_of_mem _ hm, hmid⟩
          · intro m hm hmid
            rcases List.mem_cons.mp hm with h | h
            · subst h
              exact absurd hmid.symm hx
            · exact ihKind m h hmid
      · rw [if_neg hc]
        push_neg at hc
        by_cases hx : id = x
        · subst hx
          rw [hf] at hfx
          cases hfx
          constructor
          · constructor
            · rintro ⟨m, hm, hmid⟩
              exact absurd hmid (no_record_of_upToDate fetch id d hf rest s hc m hm)
            · intro hrhs
              exact absurd hc hrhs
          · intro m hm hmid
            exact absurd hmid (no_record_of_upToDate fetch id d hf rest s hc m hm)
        · have hid' : id ∈ rest := by
            rcases List.mem_cons.mp hid with h | h
            · exact absurd h hx
            · exact h
          exact ih s id d hid' hf

/-- Witness for C2 at the specification scenario: tracked ids 100 and
200, store holding 1.0 for 100; the fetch of 200 returns 2.3 which is
absent from the store, so a change record for 200 exists. -/
theorem c2_witness :
    ("200" ∈ ["100", "200"]) ∧
      Store.get [("100", "1.0")] "200" ≠ some "2.3" ∧
      (∃ m ∈ (checkForUpdates sampleFetch ["100", "200"] [("100", "1.0")]).1,
        m.info.app_id = "200") :=
  ⟨by decide, by decide,
    (c2_change_iff_version_differs sampleFetch ["100", "200"] [("100", "1.0")]
        "200"
        { name := "Beta"
          developer := "Bcme"
          current_version := "2.3"
          last_updated := "2024-06-02 11:30 UTC"
          store_url := "https://apps.example/200"
          release_notes := "Bug fixes." }
        (by decide) (by decide)).1.mpr (by decide)⟩

/-- C3: the app ids of the change records produced by a cycle form a
sublist of the configured tracked-id list, i.e. changed apps are
listed in exactly the relative order of the tracked-id list, whatever
the fetch outcomes. -/
theorem c3_changes_preserve_tracked_order (fetch : String → Option FetchedApp) :
    ∀ (comps : List String) (s : Store),
      ((checkForUpdates fetch comps s).1.map
        (fun m => m.info.app_id)).Sublist comps := by
  intro comps
  induction comps with
  | nil => intro s; simp [checkForUpdates]
  | cons x rest ih =>
    intro s
    cases hfx : fetch x with
    | none =>
      simp only [checkForUpdates, hfx]
      exact List.Sublist.cons x (ih s)
    | some d =>
      simp only [checkForUpdates, hfx]
      by_cases hc : Store.get s x ≠ some d.current_version
      · rw [if_pos hc]
        simp only [List.map_cons]
        exact List.Sublist.cons₂ x
          (ih (Store.set s x d.current_version))
      · rw [if_neg hc]
        exact List.Sublist.cons x (ih s)

/-- C4: a tracked id whose fetch fails contributes no change record,
its store entry is left exactly as it was, and the rest of the cycle
is unaffected: the loop over the tracked list with the failing id
removed produces the identical result. -/
theorem c4_fetch_failure_isolated (fetch : String → Option FetchedApp)
    (bad : String) (hbad : fetch bad = none) :
    (∀ (comps : List String) (s : Store),
        (∀ m ∈ (checkForUpdates fetch comps s).1, m.info.app_id ≠ bad) ∧
          Store.get (checkForUpdates fetch comps s).2 bad = Store.get s bad) ∧
      ∀ (pre post : List String) (s : Store),
        checkForUpdates fetch (pre ++ bad :: post) s =
          checkForUpdates fetch (pre ++ post) s := by
  constructor
  · intro comps s
    constructor
    · intro m hm hmid
      obtain ⟨-, d, hd, -⟩ := mem_checkForUpdates fetch comps s m hm
      rw [hmid, hbad] at hd
      exact Option.noConfusion hd
    · exact store_untouched fetch bad comps s (Or.inr hbad)
  · intro pre
    induction pre with
    | nil =>
      intro post s
      simp only [List.nil_append, checkForUpdates, hbad]
    | cons x pres ih =>
      intro post s
      simp only [List.cons_append, checkForUpdates]
      cases hfx : fetch x with
      | none =>
        simp only [hfx]
        exact ih post s
      | some d =>
        simp only [hfx]
        by_cases hc : Store.get s x ≠ some d.current_version
        · rw [if_pos hc, if_pos hc]
          simp only [List.append_eq]
          rw [ih post (Store.set s x d.current_version)]
        · rw [if_neg hc, if_neg hc]
          exact ih post s

/-- Witness for C4: the fetch of id 300 fails, so running the cycle
loop with and without 300 in the middle of the tracked list gives
identical results, and the store entry for 300 stays absent. -/
theorem c4_witness :
    sampleFetch "300" = none ∧
      checkForUpdates sampleFetch (["100"] ++ "300" :: ["200"]) [] =
        checkForUpdates sampleFetch (["100"] ++ ["200"]) [] ∧
      Store.get (checkForUpdates sampleFetch ["100", "300", "200"] []).2 "300" =
        Store.get ([] : Store) "300" :=
  ⟨by decide,
    (c4_fetch_failure_isolated sampleFetch "300" (by decide)).2 ["100"] ["200"] [],
    ((c4_fetch_failure_isolated sampleFetch "300" (by decide)).1
      ["100", "300", "200"] []).2⟩

/-- C5: for a change record in the formatted output, release notes
that are empty or whitespace-only after trimming produce no notes
block at all; notes longer than 500 characters produce a notes block
holding exactly the first 500 characters followed by the ellipsis
marker; notes of at most 500 characters appear unmodified. -/
theorem c5_notes_truncation (lastInfo : AppInfo) (m : MarkedApp) :
    (pyStrip m.info.release_notes = "" →
        ∀ t, Block.notesSection t ∉ appBlocks lastInfo m) ∧
      (pyStrip m.info.release_notes ≠ "" →
        500 < m.info.release_notes.data.length →
        Block.notesSection ("*What\u0027s New:*\n```" ++
            (String.mk (m.info.release_notes.data.take 500) ++ "...") ++
            "```") ∈ appBlocks lastInfo m) ∧
      (pyStrip m.info.release_notes ≠ "" →
        m.info.release_notes.data.length ≤ 500 →
        Block.notesSection
            ("*What\u0027s New:*\n```" ++ m.info.release_notes ++ "```") ∈
          appBlocks lastInfo m) := by
  refine ⟨?_, ?_, ?_⟩
  · intro hs t
    rw [appBlocks, if_neg (fun hand => hand.2 hs), List.nil_append]
    by_cases h2 : m.info ≠ lastInfo
    · rw [if_pos h2]
      simp
    · rw [if_neg h2]
      simp
  · intro hs hlen
    have hne : m.info.release_notes ≠ "" := by
      intro he
      rw [he] at hs
      exact hs rfl
    rw [appBlocks, if_pos ⟨hne, hs⟩]
    have ht : notesBlockText m.info.release_notes =
        "*What\u0027s New:*\n```" ++
          (String.mk (m.info.release_notes.data.take 500) ++ "...") ++ "```" := by
      rw [notesBlockText, pyTruncatedNotes, if_pos hlen]
    rw [ht]
    by_cases h2 : m.info ≠ lastInfo
    · rw [if_pos h2]; simp
    · rw [if_neg h2]; simp
  · intro hs hlen
    have hne : m.info.release_notes ≠ "" := by
      intro he
      rw [he] at hs
      exact hs rfl
    rw [appBlocks, if_pos ⟨hne, hs⟩]
    have ht : notesBlockText m.info.release_notes =
        "*What\u0027s New:*\n```" ++ m.info.release_notes ++ "```" := by
      rw [notesBlockText, pyTruncatedNotes, if_neg (Nat.not_lt.mpr hlen),
        List.take_of_length_le hlen, string_mk_data, string_append_empty]
    rw [ht]
    by_cases h2 : m.info ≠ lastInfo
    · rw [if_pos h2]; simp
    · rw [if_neg h2]; simp

set_option maxRecDepth 20000 in
/-- Witness for C5 on concrete inputs: notes consisting of 600 x
characters yield the 500-character prefix plus ellipsis, the short
notes of the second sample app pass through unchanged, and notes
consisting only of whitespace yield no notes block (instantiated at
the text the block would have carried). -/
theorem c5_witness :
    (pyStrip longNotes ≠ "" ∧ 500 < longNotes.data.length ∧
        Block.notesSection ("*What\u0027s New:*\n```" ++
            (String.mk (longNotes.data.take 500) ++ "...") ++ "```") ∈
          appBlocks sampleInfo
            ⟨{ sampleInfo with release_notes := longNotes }, false⟩) ∧
      (Block.notesSection ("*What\u0027s New:*\n```" ++ "Bug fixes." ++ "```") ∈
          appBlocks sampleInfo2 ⟨sampleInfo2, true⟩) ∧
      (pyStrip " \n\t " = "" ∧
        Block.notesSection (notesBlockText " \n\t ") ∉
          appBlocks sampleInfo
            ⟨{ sampleInfo with release_notes := " \n\t " }, false⟩) :=
  ⟨⟨by decide, by decide,
      (c5_notes_truncation sampleInfo
        ⟨{ sampleInfo with release_notes := longNotes }, false⟩).2.1
        (by decide) (by decide)⟩,
    (c5_notes_truncation sampleInfo2 ⟨sampleInfo2, true⟩).2.2
      (by decide) (by decide),
    ⟨by decide,
      (c5_notes_truncation sampleInfo
        ⟨{ sampleInfo with release_notes := " \n\t " }, false⟩).1
        (by decide) (notesBlockText " \n\t ")⟩⟩

/-- C6 counterexample: the claim demands exactly one separator
between each pair of consecutive app blocks (n-1 separators for n=2),
but on a two-element sequence whose records are equal the notifier
emits zero dividers, because the divider guard compares each record
by value against the last list element rather than by position. -/
theorem c6_counterexample :
    (sendConsolidatedNotification "chan"
        [⟨sampleInfo, false⟩, ⟨sampleInfo, false⟩]).map
        (fun p => (p.blocks.filter isDivider).length) = some 0 ∧
      ([(⟨sampleInfo, false⟩ : MarkedApp), ⟨sampleInfo, false⟩].length = 2) := by
  constructor
  · rfl
  · rfl

/-- C6 amended: on every non-empty record sequence the payload holds
exactly one app block per record in input order and never a separator
after the last block; the blocks emitted for a record contain exactly
one separator when its metadata differs (by dataclass equality) from
the last record and none otherwise, so the total number of separators
equals the number of earlier records differing from the last one —
in particular n-1 separators whenever no earlier record equals the
last record, e.g. for pairwise distinct records. -/
theorem c6_blocks_and_separators (channel : String) (l : List MarkedApp)
    (z : MarkedApp) :
    ∃ p, sendConsolidatedNotification channel (l ++ [z]) = some p ∧
      p.blocks.filterMap blockAppFields = (l ++ [z]).map markedFields ∧
      (∀ m : MarkedApp, (appBlocks z.info m).filter isDivider =
        if m.info = z.info then [] else [Block.divider]) ∧
      (p.blocks.filter isDivider).length =
        (l.filter (fun m => decide (m.info ≠ z.info))).length ∧
      p.blocks.getLast? ≠ some Block.divider ∧
      ((∀ m ∈ l, m.info ≠ z.info) →
        (p.blocks.filter isDivider).length = l.length) := by
  have hz : (l ++ [z]).getLast? = some z := List.getLast?_concat l
  have hzero : ([z].filter (fun m => decide (m.info ≠ z.info))) = [] := by
    simp
  have hcount : ((Block.header (buildTitle (l ++ [z])) ::
        ((l ++ [z]).map (appBlocks z.info)).flatten).filter
        isDivider).length =
      (l.filter (fun m => decide (m.info ≠ z.info))).length := by
    simp only [List.filter_cons, isDivider_header, Bool.false_eq_true,
      if_false]
    rw [length_filter_isDivider_flatten z.info (l ++ [z]),
      List.filter_append, hzero, List.append_nil]
  refine ⟨_, sendConsolidatedNotification_eq_some channel (l ++ [z]) z hz,
    ?_, ?_, hcount, ?_, ?_⟩
  · simp only [List.filterMap_cons, blockAppFields_header]
    exact filterMap_blockAppFields_flatten z.info (l ++ [z])
  · intro m
    exact filter_isDivider_appBlocks z.info m
  · simp only [List.map_append, List.map_cons, List.map_nil,
      List.flatten_append, List.flatten_cons, List.flatten_nil,
      List.append_nil]
    rw [← List.cons_append]
    exact getLast_append_appBlocks_ne_divider
      (Block.header (buildTitle (l ++ [z])) ::
        (l.map (appBlocks z.info)).flatten) z
  · intro hdist
    rw [hcount,
      List.filter_eq_self.mpr (fun m hm => decide_eq_true (hdist m hm))]

/-- Witness for the amended C6 on two distinct records: the payload
exists, has one app block per record in order, one separator between
the two blocks (discharging the all-earlier-records-differ hypothesis
of the final clause) and none after the last one. -/
theorem c6_witness :
    (∀ m ∈ [(⟨sampleInfo, false⟩ : MarkedApp)], m.info ≠ sampleInfo2) ∧
      ∃ p, sendConsolidatedNotification "chan"
          ([(⟨sampleInfo, false⟩ : MarkedApp)] ++
            [(⟨sampleInfo2, true⟩ : MarkedApp)]) = some p ∧
        p.blocks.filterMap blockAppFields =
          ([(⟨sampleInfo, false⟩ : MarkedApp)] ++
            [(⟨sampleInfo2, true⟩ : MarkedApp)]).map markedFields ∧
        (p.blocks.filter isDivider).length = 1 ∧
        p.blocks.getLast? ≠ some Block.divider := by
  refine ⟨by decide, ?_⟩
  obtain ⟨p, hp, hmap, -, -, hlast, himp⟩ :=
    c6_blocks_and_separators "chan" [(⟨sampleInfo, false⟩ : MarkedApp)]
      (⟨sampleInfo2, true⟩ : MarkedApp)
  exact ⟨p, hp, hmap, himp (by decide), hlast⟩

/-- C7: when the cycle detects zero changes, no payload is produced,
the delivery collaborator is never invoked, and the persisted store
is left untouched — in particular when every fetch fails. -/
theorem c7_no_changes_no_notification (channel : String) (comps : List String)
    (fetch : String → Option FetchedApp) (deliver : Payload → DeliveryOutcome)
    (s : Store) (h : (checkForUpdates fetch comps s).1 = []) :
    (runCycle channel comps fetch deliver s).payload = none ∧
      (runCycle channel comps fetch deliver s).deliveryAttempted = false ∧
      (runCycle channel comps fetch deliver s).persistedStore = s := by
  have hsend : sendConsolidatedNotification channel
      (checkForUpdates fetch comps s).1 = none := by
    rw [h]
    rfl
  simp only [runCycle, hsend]
  simp

/-- Witness for C7 on the all-fetches-fail scenario: two tracked ids,
a fetch collaborator that always fails, a non-empty prior store; the
loop finds nothing, no payload is built, delivery is never attempted
and the persisted store is unchanged. -/
theorem c7_witness :
    ((checkForUpdates (fun _ => none) ["100", "200"] [("100", "1.0")]).1 = []) ∧
      (runCycle "chan" ["100", "200"] (fun _ => none)
        (fun _ => DeliveryOutcome.ok) [("100", "1.0")]).payload = none ∧
      (runCycle "chan" ["100", "200"] (fun _ => none)
        (fun _ => DeliveryOutcome.ok) [("100", "1.0")]).deliveryAttempted =
        false ∧
      (runCycle "chan" ["100", "200"] (fun _ => none)
        (fun _ => DeliveryOutcome.ok) [("100", "1.0")]).persistedStore =
        [("100", "1.0")] :=
  ⟨by decide,
    (c7_no_changes_no_notification "chan" ["100", "200"] (fun _ => none)
      (fun _ => DeliveryOutcome.ok) [("100", "1.0")] (by decide)).1,
    (c7_no_changes_no_notification "chan" ["100", "200"] (fun _ => none)
      (fun _ => DeliveryOutcome.ok) [("100", "1.0")] (by decide)).2.1,
    (c7_no_changes_no_notification "chan" ["100", "200"] (fun _ => none)
      (fun _ => DeliveryOutcome.ok) [("100", "1.0")] (by decide)).2.2⟩

/-- C8 counterexample: the claim says the title icon distinguishes
whether any change is a first observation versus all changes being
new releases.  But a mixed sequence containing a first observation
(is_new_release = false) receives the same new-release icon as a
sequence of new releases only, because the code keys the icon on the
presence of a NEW_RELEASE record, not of a FIRST_OBSERVATION one. -/
theorem c8_counterexample :
    titleEmoji [⟨sampleInfo, false⟩, ⟨sampleInfo2, true⟩] =
        titleEmoji [⟨sampleInfo2, true⟩] ∧
      (∃ m ∈ [(⟨sampleInfo, false⟩ : MarkedApp), ⟨sampleInfo2, true⟩],
        m.is_new_release = false) ∧
      (∀ m ∈ [(⟨sampleInfo2, true⟩ : MarkedApp)], m.is_new_release = true) := by
  refine ⟨rfl, ?_, ?_⟩
  · exact ⟨⟨sampleInfo, false⟩, List.mem_cons_self _ _, rfl⟩
  · intro m hm
    rcases List.mem_cons.mp hm with h | h
    · subst h; rfl
    · exact absurd h (List.not_mem_nil m)

/-- C8 amended: for every non-empty record sequence the payload title
states the count of changes, and the icon distinguishes whether any
change is a NEW_RELEASE (new-release icon) versus all changes being
FIRST_OBSERVATION (plain icon). -/
theorem c8_title_count_and_icon (channel : String) (apps : List MarkedApp)
    (h : apps ≠ []) :
    (sendConsolidatedNotification channel apps).map (fun p => p.text) =
        some (titleEmoji apps ++ " Competitor App Updates (" ++
          toString apps.length ++ ")") ∧
      (titleEmoji apps = "🆕" ↔ ∃ m ∈ apps, m.is_new_release = true) ∧
      (titleEmoji apps = "📱" ↔ ∀ m ∈ apps, m.is_new_release = false) := by
  refine ⟨?_, ?_, ?_⟩
  · cases apps with
    | nil => exact absurd rfl h
    | cons a l =>
      obtain ⟨z, hz⟩ := exists_getLast_cons a l
      rw [sendConsolidatedNotification_eq_some channel (a :: l) z hz]
      rfl
  · by_cases hany : (apps.any (fun m => m.is_new_release)) = true
    · rw [titleEmoji, if_pos hany]
      constructor
      · intro _
        exact List.any_eq_true.mp hany
      · intro _
        rfl
    · rw [titleEmoji, if_neg hany]
      constructor
      · intro he
        exact absurd he (by decide)
      · rintro ⟨m, hm, hp⟩
        exact absurd (List.any_eq_true.mpr ⟨m, hm, hp⟩) hany
  · by_cases hany : (apps.any (fun m => m.is_new_release)) = true
    · rw [titleEmoji, if_pos hany]
      constructor
      · intro he
        exact absurd he (by decide)
      · intro hall
        obtain ⟨m, hm, hp⟩ := List.any_eq_true.mp hany
        rw [hall m hm] at hp
        exact absurd hp (by decide)
    · rw [titleEmoji, if_neg hany]
      constructor
      · intro _ m hm
        refine Bool.eq_false_iff.mpr (fun hp => ?_)
        exact absurd (List.any_eq_true.mpr ⟨m, hm, hp⟩) hany
      · intro _
        rfl

/-- Witness for the amended C8: a singleton new-release sequence is
non-empty and its icon is the new-release icon iff it contains a
new-release record. -/
theorem c8_witness :
    ([(⟨sampleInfo2, true⟩ : MarkedApp)] ≠ []) ∧
      (titleEmoji [(⟨sampleInfo2, true⟩ : MarkedApp)] = "🆕" ↔
        ∃ m ∈ [(⟨sampleInfo2, true⟩ : MarkedApp)], m.is_new_release = true) :=
  ⟨by decide,
    (c8_title_count_and_icon "chan" [(⟨sampleInfo2, true⟩ : MarkedApp)]
      (by decide)).2.1⟩

/-- C9: over two consecutive cycles with the same tracked ids and the
same fetch collaborator, where every fetch succeeds, the second cycle
produces zero change records: the first cycle leaves the persisted
store holding the fetched version of every tracked id. -/
theorem c9_second_cycle_no_changes (channel : String) (comps : List String)
    (fetch : String → Option FetchedApp) (deliver : Payload → DeliveryOutcome)
    (s : Store) (_hall : ∀ id ∈ comps, (fetch id).isSome = true) :
    (runCycle channel comps fetch deliver
      (runCycle channel comps fetch deliver s).persistedStore).changes = [] := by
  rw [runCycle_changes]
  have hup : ∀ id ∈ comps, ∀ d, fetch id = some d →
      Store.get ((runCycle channel comps fetch deliver s).persistedStore) id =
        some d.current_version := by
    intro id hid d hf
    rw [runCycle_persistedStore]
    by_cases hch : (checkForUpdates fetch comps s).1 = []
    · rw [if_pos hch]
      exact upToDate_of_no_changes fetch comps s hch id hid d hf
    · rw [if_neg hch]
      exact store_success fetch id d hf comps s hid
  rw [no_changes_of_upToDate fetch comps _ hup]

/-- Witness for C9: one tracked id fetched successfully twice with an
initially empty store; the second cycle reports no changes. -/
theorem c9_witness :
    (∀ id ∈ ["100"], (sampleFetch id).isSome = true) ∧
      (runCycle "chan" ["100"] sampleFetch (fun _ => DeliveryOutcome.ok)
        (runCycle "chan" ["100"] sampleFetch (fun _ => DeliveryOutcome.ok)
          []).persistedStore).changes = [] :=
  ⟨by decide,
    c9_second_cycle_no_changes "chan" ["100"] sampleFetch
      (fun _ => DeliveryOutcome.ok) [] (by decide)⟩

/-- C10: the update loop never removes a store key; each tracked id
either keeps exactly its prior entry (failed fetch) or ends mapped to
the freshly fetched version (which coincides with the prior entry
when the versions are equal); keys outside the tracked list are never
touched. -/
theorem c10_store_invariant (fetch : String → Option FetchedApp)
    (comps : List String) (s : Store) :
    (∀ k v, Store.get s k = some v →
        (Store.get (checkForUpdates fetch comps s).2 k).isSome = true) ∧
      (∀ id ∈ comps,
        (fetch id = none →
          Store.get (checkForUpdates fetch comps s).2 id = Store.get s id) ∧
        ∀ d, fetch id = some d →
          Store.get (checkForUpdates fetch comps s).2 id =
            some d.current_version) ∧
      ∀ k, k ∉ comps →
        Store.get (checkForUpdates fetch comps s).2 k = Store.get s k := by
  refine ⟨?_, ?_, ?_⟩
  · intro k v hk
    rcases store_cases fetch k comps s with h | ⟨d, -, h⟩
    · rw [h, hk]
      rfl
    · rw [h]
      rfl
  · intro id hid
    exact ⟨fun hf => store_untouched fetch id comps s (Or.inr hf),
      fun d hf => store_success fetch id d hf comps s hid⟩
  · intro k hk
    exact store_untouched fetch k comps s (Or.inl hk)

/-- Witness for C10 at the specification scenario: tracked ids 100,
200 and 300 over a store holding entries for 100 and an untracked id
999; the fetch of 300 fails.  Afterwards 200 is mapped to its fetched
version, the failed id 300 and the untracked id 999 keep their prior
(absent respectively present) entries. -/
theorem c10_witness :
    ("200" ∈ ["100", "200", "300"]) ∧ sampleFetch "300" = none ∧
      Store.get (checkForUpdates sampleFetch ["100", "200", "300"]
        [("100", "1.0"), ("999", "9.9")]).2 "200" = some "2.3" ∧
      Store.get (checkForUpdates sampleFetch ["100", "200", "300"]
        [("100", "1.0"), ("999", "9.9")]).2 "300" =
        Store.get [("100", "1.0"), ("999", "9.9")] "300" ∧
      Store.get (checkForUpdates sampleFetch ["100", "200", "300"]
        [("100", "1.0"), ("999", "9.9")]).2 "999" =
        Store.get [("100", "1.0"), ("999", "9.9")] "999" :=
  ⟨by decide, by decide,
    ((c10_store_invariant sampleFetch ["100", "200", "300"]
        [("100", "1.0"), ("999", "9.9")]).2.1 "200" (by decide)).2
      { name := "Beta"
        developer := "Bcme"
        current_version := "2.3"
        last_updated := "2024-06-02 11:30 UTC"
        store_url := "https://apps.example/200"
        release_notes := "Bug fixes." }
      (by decide),
    ((c10_store_invariant sampleFetch ["100", "200", "300"]
        [("100", "1.0"), ("999", "9.9")]).2.1 "300" (by decide)).1 (by decide),
    (c10_store_invariant sampleFetch ["100", "200", "300"]
        [("100", "1.0"), ("999", "9.9")]).2.2 "999" (by decide)⟩
